/-
  Verification of the Daily-report dashboard application (src/Daily_report.py).

  The Python source is shallowly embedded below: each Python function that the
  verified claims touch is translated into an executable Lean definition, with
  machine-level details made explicit (SQLite rows become structures, the
  sqlite `lower()` and Python `str.lower()` are modelled as ASCII lowering,
  Python `dict`s with known keys become structures with `Option` fields,
  IEEE-754 double arithmetic is simulated exactly over `ℚ`).  Theorems about
  the specification's claims follow the definitions.
-/
import Mathlib

namespace DailyReport

/-! ### Basic string helpers

`str.lower()` / sqlite `lower()` are modelled as ASCII lowering (the
application's emails and names are ASCII; Hebrew letters have no case). -/

/-- ASCII lower-casing of one character. -/
def lowerChar (c : Char) : Char :=
  if 'A' ≤ c ∧ c ≤ 'Z' then Char.ofNat (c.toNat + 32) else c

/-- ASCII lower-casing of a string (model of `str.lower()` and sqlite `lower`). -/
def lowerStr (s : String) : String := ⟨s.data.map lowerChar⟩

/-- Python whitespace characters stripped by `str.strip()`. -/
def isPyWs (c : Char) : Bool :=
  c == ' ' || c == '\t' || c == '\n' || c == '\r' || c == '\x0b' || c == '\x0c'

/-- Model of `str.strip()`: drop whitespace from both ends. -/
def stripStr (s : String) : String :=
  ⟨((s.data.dropWhile isPyWs).reverse.dropWhile isPyWs).reverse⟩

/-- Does `needle` occur at the head of `hay`? -/
def subAt : List Char → List Char → Bool
  | [], _ => true
  | _ :: _, [] => false
  | a :: as, b :: bs => a == b && subAt as bs

/-- Model of Python's `needle in hay` substring test on character lists. -/
def hasSub (needle : List Char) : List Char → Bool
  | [] => needle.isEmpty
  | c :: t => subAt needle (c :: t) || hasSub needle t

/-- Model of Python's `ch in s` membership test for a single character. -/
def containsChar (s : String) (c : Char) : Bool := s.data.contains c

/-! ### Calendar dates (`datetime.date`) -/

/-- A calendar date, as produced by `date.fromisoformat`. -/
structure PyDate where
  year : Nat
  month : Nat
  day : Nat
deriving DecidableEq, Repr

/-- The comparison `a < b` on `datetime.date` (lexicographic on y/m/d). -/
def PyDate.ltb (a b : PyDate) : Bool :=
  a.year < b.year ||
    (a.year == b.year && (a.month < b.month ||
      (a.month == b.month && a.day < b.day)))

/-- Gregorian leap-year test, as in `calendar.isleap`. -/
def isLeapYear (y : Nat) : Bool :=
  y % 4 == 0 && (y % 100 != 0 || y % 400 == 0)

/-- Days in a month of a given year. -/
def daysInMonth (y m : Nat) : Nat :=
  if m == 2 then (if isLeapYear y then 29 else 28)
  else if m == 4 || m == 6 || m == 9 || m == 11 then 30
  else 31

/-- The numeric value of a decimal digit character, if it is one. -/
def digitVal (c : Char) : Option Nat :=
  if '0' ≤ c ∧ c ≤ '9' then some (c.toNat - '0'.toNat) else none

/-- Two-digit decimal read. -/
def read2 (a b : Char) : Option Nat := do
  let x ← digitVal a
  let y ← digitVal b
  pure (x * 10 + y)

/-- Four-digit decimal read. -/
def read4 (a b c d : Char) : Option Nat := do
  let x ← read2 a b
  let y ← read2 c d
  pure (x * 100 + y)

/-- Validity check performed by the `datetime` constructors. -/
def validYmd (y m d : Nat) : Bool :=
  1 ≤ y && y ≤ 9999 && 1 ≤ m && m ≤ 12 && 1 ≤ d && d ≤ daysInMonth y m

/-- Model of `date.fromisoformat`: accepts exactly `YYYY-MM-DD` with a valid
calendar date, raising (here: `none`) otherwise. -/
def dateFromIso (s : String) : Option PyDate :=
  match s.data with
  | [y1, y2, y3, y4, '-', m1, m2, '-', d1, d2] => do
    let y ← read4 y1 y2 y3 y4
    let m ← read2 m1 m2
    let d ← read2 d1 d2
    if validYmd y m d then pure ⟨y, m, d⟩ else none
  | _ => none

/-- Zero-padded duo of decimal digit characters. -/
def pad2 (n : Nat) : List Char :=
  [Char.ofNat ('0'.toNat + n / 10 % 10), Char.ofNat ('0'.toNat + n % 10)]

/-- Zero-padded four decimal digit characters. -/
def pad4 (n : Nat) : List Char :=
  [Char.ofNat ('0'.toNat + n / 1000 % 10), Char.ofNat ('0'.toNat + n / 100 % 10),
   Char.ofNat ('0'.toNat + n / 10 % 10), Char.ofNat ('0'.toNat + n % 10)]

/-- Model of `date.isoformat()` / `str(date)`: `YYYY-MM-DD`. -/
def isoOfDate (d : PyDate) : String :=
  ⟨pad4 d.year ++ '-' :: pad2 d.month ++ '-' :: pad2 d.day⟩

/-! ### Timestamps (`datetime.datetime`) -/

/-- A wall-clock timestamp as parsed by `datetime.fromisoformat`. -/
structure PyDateTime where
  date : PyDate
  hour : Nat
  minute : Nat
  second : Nat
  micro : Nat
deriving DecidableEq, Repr

/-- A strictly monotone linearization of a timestamp.  `datetime.timestamp()`
returns epoch seconds; only the induced order matters to the code under
verification (sorting and `>` comparisons), which this key reproduces. -/
def PyDateTime.key (t : PyDateTime) : Int :=
  (((((t.date.year * 13 + t.date.month) * 32 + t.date.day) * 24 + t.hour) * 60
      + t.minute) * 60 + t.second) * 1000000 + t.micro

/-- The comparison `a > b` on `datetime` values. -/
def PyDateTime.gtb (a b : PyDateTime) : Bool := b.key < a.key

/-- Parse `HH:MM:SS` with optional `.ffffff` (1–6 fractional digits), the time
shapes `datetime.fromisoformat` accepts that this application produces. -/
def timeFromChars (cs : List Char) : Option (Nat × Nat × Nat × Nat) :=
  match cs with
  | [h1, h2, ':', m1, m2, ':', s1, s2] => do
    let h ← read2 h1 h2
    let m ← read2 m1 m2
    let s ← read2 s1 s2
    if h ≤ 23 && m ≤ 59 && s ≤ 59 then pure (h, m, s, 0) else none
  | h1 :: h2 :: ':' :: m1 :: m2 :: ':' :: s1 :: s2 :: '.' :: frac => do
    let h ← read2 h1 h2
    let m ← read2 m1 m2
    let s ← read2 s1 s2
    if h ≤ 23 && m ≤ 59 && s ≤ 59 && !frac.isEmpty && frac.length ≤ 6
        && frac.all (fun c => (digitVal c).isSome) then
      let us := frac.foldl (fun acc c => acc * 10 + ((digitVal c).getD 0)) 0
      pure (h, m, s, us * 10 ^ (6 - frac.length))
    else none
  | _ => none

/-- Model of `datetime.fromisoformat` on the shapes this application stores:
`YYYY-MM-DD` (midnight) or `YYYY-MM-DD` + `T`/space + `HH:MM:SS[.ffffff]`. -/
def datetimeFromIso (s : String) : Option PyDateTime :=
  match s.data with
  | y1 :: y2 :: y3 :: y4 :: '-' :: m1 :: m2 :: '-' :: d1 :: d2 :: rest => do
    let y ← read4 y1 y2 y3 y4
    let m ← read2 m1 m2
    let d ← read2 d1 d2
    if validYmd y m d then
      match rest with
      | [] => pure ⟨⟨y, m, d⟩, 0, 0, 0, 0⟩
      | sep :: timecs =>
        if sep = 'T' ∨ sep = ' ' then do
          let (h, mi, sec, us) ← timeFromChars timecs
          pure ⟨⟨y, m, d⟩, h, mi, sec, us⟩
        else none
    else none
  | _ => none

/-- Model of `s.replace("Z", "")`: delete every `Z`. -/
def stripZ (s : String) : String := ⟨s.data.filter (· != 'Z')⟩

/-! ### UTF-8 encoding (`str.encode("utf-8")`) -/

/-- UTF-8 bytes of one Unicode scalar value. -/
def utf8Char (c : Char) : List Nat :=
  let n := c.toNat
  if n < 0x80 then [n]
  else if n < 0x800 then [0xC0 + n / 64, 0x80 + n % 64]
  else if n < 0x10000 then [0xE0 + n / 4096, 0x80 + n / 64 % 64, 0x80 + n % 64]
  else [0xF0 + n / 262144, 0x80 + n / 4096 % 64, 0x80 + n / 64 % 64, 0x80 + n % 64]

/-- UTF-8 bytes of a string, each byte a `Nat` below 256. -/
def utf8Bytes (s : String) : List Nat := s.data.flatMap utf8Char

/-! ### SHA-256 (`hashlib.sha256`)

32-bit words are `Nat` values kept below `2 ^ 32` by explicit `% 2 ^ 32`. -/

/-- The word modulus `2 ^ 32`. -/
def w32 : Nat := 4294967296

/-- Right rotation of a 32-bit word by `k` bits. -/
def rotr32 (k n : Nat) : Nat :=
  ((n >>> k) ||| (n <<< (32 - k))) % w32

/-- Bitwise complement of a 32-bit word. -/
def not32 (n : Nat) : Nat := Nat.xor n (w32 - 1)

/-- SHA-256 big sigma 0. -/
def bsig0 (x : Nat) : Nat := Nat.xor (Nat.xor (rotr32 2 x) (rotr32 13 x)) (rotr32 22 x)

/-- SHA-256 big sigma 1. -/
def bsig1 (x : Nat) : Nat := Nat.xor (Nat.xor (rotr32 6 x) (rotr32 11 x)) (rotr32 25 x)

/-- SHA-256 small sigma 0. -/
def ssig0 (x : Nat) : Nat := Nat.xor (Nat.xor (rotr32 7 x) (rotr32 18 x)) (x >>> 3)

/-- SHA-256 small sigma 1. -/
def ssig1 (x : Nat) : Nat := Nat.xor (Nat.xor (rotr32 17 x) (rotr32 19 x)) (x >>> 10)

/-- SHA-256 choice function. -/
def ch32 (x y z : Nat) : Nat := Nat.xor (Nat.land x y) (Nat.land (not32 x) z)

/-- SHA-256 majority function. -/
def maj32 (x y z : Nat) : Nat :=
  Nat.xor (Nat.xor (Nat.land x y) (Nat.land x z)) (Nat.land y z)

/-- The 64 SHA-256 round constants (decimal). -/
def sha256K : List Nat :=
  [1116352408, 1899447441, 3049323471, 3921009573,
   961987163, 1508970993, 2453635748, 2870763221,
   3624381080, 310598401, 607225278, 1426881987,
   1925078388, 2162078206, 2614888103, 3248222580,
   3835390401, 4022224774, 264347078, 604807628,
   770255983, 1249150122, 1555081692, 1996064986,
   2554220882, 2821834349, 2952996808, 3210313671,
   3336571891, 3584528711, 113926993, 338241895,
   666307205, 773529912, 1294757372, 1396182291,
   1695183700, 1986661051, 2177026350, 2456956037,
   2730485921, 2820302411, 3259730800, 3345764771,
   3516065817, 3600352804, 4094571909, 275423344,
   430227734, 506948616, 659060556, 883997877,
   958139571, 1322822218, 1537002063, 1747873779,
   1955562222, 2024104815, 2227730452, 2361852424,
   2428436474, 2756734187, 3204031479, 3329325298]

/-- Big-endian 8-byte encoding of a length (in bits). -/
def be8Bytes (n : Nat) : List Nat :=
  [n >>> 56 % 256, n >>> 48 % 256, n >>> 40 % 256, n >>> 32 % 256,
   n >>> 24 % 256, n >>> 16 % 256, n >>> 8 % 256, n % 256]

/-- SHA-256 message padding: `0x80`, zeros to 56 mod 64, then the bit length. -/
def sha256Pad (msg : List Nat) : List Nat :=
  let l := msg.length
  let zeros := (64 + 56 - (l + 1) % 64) % 64
  msg ++ 0x80 :: List.replicate zeros 0 ++ be8Bytes (8 * l)

/-- Big-endian packing of bytes into 32-bit words. -/
def bytesToWords : List Nat → List Nat
  | b0 :: b1 :: b2 :: b3 :: rest => (((b0 * 256 + b1) * 256 + b2) * 256 + b3) :: bytesToWords rest
  | _ => []

/-- Split the padded message's words into 16-word (512-bit) blocks; the
padding guarantees the word count is a multiple of 16. -/
def wordsToBlocks : List Nat → List (List Nat)
  | w0 :: w1 :: w2 :: w3 :: w4 :: w5 :: w6 :: w7 ::
      w8 :: w9 :: w10 :: w11 :: w12 :: w13 :: w14 :: w15 :: rest =>
    [w0, w1, w2, w3, w4, w5, w6, w7, w8, w9, w10, w11, w12, w13, w14, w15]
      :: wordsToBlocks rest
  | _ => []

/-- The eight working variables / hash words of SHA-256. -/
structure Hash8 where
  a : Nat
  b : Nat
  c : Nat
  d : Nat
  e : Nat
  f : Nat
  g : Nat
  h : Nat
deriving DecidableEq, Repr

/-- The SHA-256 initial hash value (decimal). -/
def sha256Init : Hash8 :=
  ⟨1779033703, 3144134277, 1013904242, 2773480762,
   1359893119, 2600822924, 528734635, 1541459225⟩

/-- Extend the 16 message-schedule words to 64. -/
def extendSchedule (ws : List Nat) : Nat → List Nat
  | 0 => ws
  | k + 1 =>
    let n := ws.length
    let nw := (ssig1 (ws.getD (n - 2) 0) + ws.getD (n - 7) 0
      + ssig0 (ws.getD (n - 15) 0) + ws.getD (n - 16) 0) % w32
    extendSchedule (ws ++ [nw]) k

/-- One SHA-256 compression round for constant `k` and schedule word `wv`. -/
def sha256Round (st : Hash8) (kw : Nat × Nat) : Hash8 :=
  let t1 := (st.h + bsig1 st.e + ch32 st.e st.f st.g + kw.1 + kw.2) % w32
  let t2 := (bsig0 st.a + maj32 st.a st.b st.c) % w32
  ⟨(t1 + t2) % w32, st.a, st.b, st.c, (st.d + t1) % w32, st.e, st.f, st.g⟩

/-- Compress one 16-word block into the running hash. -/
def sha256Block (st : Hash8) (block : List Nat) : Hash8 :=
  let ws := extendSchedule block 48
  let r := (sha256K.zip ws).foldl sha256Round st
  ⟨(st.a + r.a) % w32, (st.b + r.b) % w32, (st.c + r.c) % w32, (st.d + r.d) % w32,
   (st.e + r.e) % w32, (st.f + r.f) % w32, (st.g + r.g) % w32, (st.h + r.h) % w32⟩

/-- Lower-case hexadecimal digit character for `n < 16`. -/
def hexChar (n : Nat) : Char :=
  if n < 10 then Char.ofNat ('0'.toNat + n) else Char.ofNat ('a'.toNat + (n - 10))

/-- Eight lower-case hex characters of a 32-bit word (big-endian nibbles). -/
def hexWord (n : Nat) : String :=
  ⟨[hexChar (n / 16 ^ 7 % 16), hexChar (n / 16 ^ 6 % 16), hexChar (n / 16 ^ 5 % 16),
    hexChar (n / 16 ^ 4 % 16), hexChar (n / 16 ^ 3 % 16), hexChar (n / 16 ^ 2 % 16),
    hexChar (n / 16 % 16), hexChar (n % 16)]⟩

/-- Model of `hashlib.sha256(bytes).hexdigest()`. -/
def sha256Hex (msg : List Nat) : String :=
  let f := (wordsToBlocks (bytesToWords (sha256Pad msg))).foldl sha256Block sha256Init
  hexWord f.a ++ hexWord f.b ++ hexWord f.c ++ hexWord f.d
    ++ hexWord f.e ++ hexWord f.f ++ hexWord f.g ++ hexWord f.h

/-- Model of `_hash_password(password, salt)`: hex digest of sha256 of `salt + password`. -/
def hashPassword (password salt : String) : String :=
  sha256Hex (utf8Bytes (salt ++ password))

/-! ### IEEE-754 double-precision arithmetic, simulated exactly

The dashboard completion metric is computed with Python floats.  Every finite
double is a rational, and each operation rounds the exact rational result to
the nearest representable value (ties to even), so the computation embeds
exactly into rational arithmetic, represented here by unnormalized integer
fractions (numerator, positive denominator).  Overflow to infinity
(magnitudes at or above `2 ^ 1024`, which would need about `2 ^ 1021` list
elements here) is outside the model. -/

/-- An unnormalized fraction `num / den`; every constructor below keeps
`den` positive. -/
structure Frac where
  num : Int
  den : Int
deriving DecidableEq, Repr

/-- Floor of a fraction (valid for positive denominators). -/
def ffloor (x : Frac) : Int := Int.fdiv x.num x.den

/-- Round half to even — the rounding of Python's `round` and of IEEE-754
(valid for positive denominators). -/
def frhe (x : Frac) : Int :=
  let f := ffloor x
  let r2 := 2 * (x.num - f * x.den)
  if r2 < x.den then f
  else if x.den < r2 then f + 1
  else if f % 2 = 0 then f else f + 1

/-- Floor of the base-2 logarithm, by structural recursion on a fuel bound. -/
def log2Fuel : Nat → Nat → Nat
  | 0, _ => 0
  | fuel + 1, n => if 2 ≤ n then log2Fuel fuel (n / 2) + 1 else 0

/-- Floor of the base-2 logarithm of a natural number. -/
def natLog2 (n : Nat) : Nat := log2Fuel n n

/-- The power `2 ^ k` as an integer, for a natural `k`. -/
def ipow2 (k : Nat) : Int := 2 ^ k

/-- Is `2 ^ e ≤ x`?  (For positive fractions.) -/
def fpow2Le (e : Int) (x : Frac) : Bool :=
  if 0 ≤ e then x.den * ipow2 e.toNat ≤ x.num
  else x.den ≤ x.num * ipow2 (-e).toNat

/-- For `x > 0`, the binary exponent: the largest `e` with `2 ^ e ≤ x`. -/
def fexp (x : Frac) : Int :=
  let e0 : Int := (natLog2 x.num.toNat : Int) - (natLog2 x.den.toNat : Int)
  if fpow2Le e0 x then e0 else e0 - 1

/-- Round a positive fraction to the double grid (52 significand bits,
subnormal grid below `2 ^ (-1022)`). -/
def flPos (x : Frac) : Frac :=
  let e := max (fexp x) (-1022)
  let k := 52 - e
  let scaled : Frac :=
    if 0 ≤ k then ⟨x.num * ipow2 k.toNat, x.den⟩ else ⟨x.num, x.den * ipow2 (-k).toNat⟩
  let m := frhe scaled
  if 0 ≤ k then ⟨m, ipow2 k.toNat⟩ else ⟨m * ipow2 (-k).toNat, 1⟩

/-- Round an exact fraction to the nearest IEEE-754 double (ties to even). -/
def flDouble (x : Frac) : Frac :=
  if x.num = 0 then ⟨0, 1⟩
  else if 0 < x.num then flPos x
  else
    let p := flPos ⟨-x.num, x.den⟩
    ⟨-p.num, p.den⟩

/-- Python `a / b` on integers `a`, `b` (true division producing a double). -/
def pyDivFloat (a b : Nat) : Frac := flDouble ⟨a, b⟩

/-- Double-precision multiplication by the integer 100. -/
def pyMul100Float (x : Frac) : Frac := flDouble ⟨x.num * 100, x.den⟩

/-- Model of `int(round(x, 0))` on a double `x`: nearest integer, ties to even. -/
def pyIntRound0 (x : Frac) : Int := frhe x

/-! ### Data model

SQLite rows become structures.  The `metrics` JSON column is stored in decoded
form (its encode/decode is not at issue in any claim; the directive
`target_departments` column, which is, is kept as raw text — see below). -/

/-- A row of the `departments` table. -/
structure Dept where
  id : Nat
  name : String
deriving DecidableEq, Repr

/-- The `metrics` dict of a report; absent keys are `none`. -/
structure Metrics where
  tasks_completed : Option Nat
  tasks_pending : Option Nat
  priority_level : Option String
deriving DecidableEq, Repr

/-- A row of the `department_reports` table, as returned by `list_reports`. -/
structure Report where
  id : Nat
  department : String
  report_date : String
  key_activities : String
  production_amounts : String
  challenges : Option String
  metrics : Metrics
  additional_notes : Option String
  status : String
  created_date : String
  created_by : Option String
deriving DecidableEq, Repr

/-- A row of the `users` table (`is_active` and `can_create_directives` are
SQLite integers; `password_hash` and `salt` are nullable). -/
structure User where
  id : Nat
  name : String
  email : String
  role : String
  can_create_directives : Nat
  is_active : Nat
  password_hash : Option String
  salt : Option String
  created_date : String
deriving DecidableEq, Repr

/-- A raw row of the `directives` table (`target_departments` is the stored
JSON text, exactly as `create_directive` wrote it). -/
structure DirectiveRow where
  id : Nat
  title : String
  description : String
  priority : String
  target_departments : String
  due_date : String
  status : String
  completion_notes : Option String
  created_date : String
  created_by : Option String
deriving DecidableEq, Repr

/-- A directive record as returned by `list_directives`, with
`target_departments` decoded back into a list. -/
structure Directive where
  id : Nat
  title : String
  description : String
  priority : String
  target_departments : List String
  due_date : String
  status : String
  completion_notes : Option String
  created_date : String
  created_by : Option String
deriving DecidableEq, Repr

/-! ### Users: lookup, login, upsert -/

/-- Model of `find_user_by_email`: first row with `lower(email) = identifier.strip().lower()`;
`None` for a falsy argument. -/
def findUserByEmail (users : List User) (email : String) : Option User :=
  if email = "" then none
  else users.find? (fun u => lowerStr u.email == lowerStr (stripStr email))

/-- Model of `find_user_by_name`: first row with `lower(name) = identifier.strip().lower()`;
`None` for a falsy argument. -/
def findUserByName (users : List User) (name : String) : Option User :=
  if name = "" then none
  else users.find? (fun u => lowerStr u.name == lowerStr (stripStr name))

/-- The lookup steps of `verify_login`: an email lookup when the identifier is
non-empty and contains `@`, then a name-lookup fallback whenever that
produced nothing. -/
def loginLookup (users : List User) (identifier : String) : Option User :=
  match (if identifier ≠ "" && containsChar identifier '@' then
      findUserByEmail users identifier
    else none) with
  | some x => some x
  | none => findUserByName users identifier

/-- Model of `verify_login(identifier, password)`: the lookup above, then the activity
check and the digest comparison against the stored hash (empty-string
fallbacks for a null salt or hash, as in the source). -/
def verifyLogin (users : List User) (identifier password : String) : Option User :=
  match loginLookup users identifier with
  | none => none
  | some u =>
    if u.is_active == 0 then none
    else
      let ph := hashPassword password (u.salt.getD "")
      if ph == u.password_hash.getD "" then some u else none

/-- Model of `create_or_update_user`.  Here `freshSalt` stands for the `_new_salt()` draw,
`newId` for the autoincrement id and `now` for the row timestamp; the guard,
the upsert-by-normalized-email, the password-only-when-truthy rule and the
`"changeme"` default are as in the source. -/
def createOrUpdateUser (users : List User) (name email role : String)
    (is_active can_create_directives : Bool) (password : Option String)
    (freshSalt : String) (newId : Nat) (now : String) : List User :=
  let email_norm := lowerStr (stripStr email)
  if name ≠ "" ∧ email_norm ≠ "" ∧ (role = "admin" ∨ role = "user") then
    match users.find? (fun u => u.email == email_norm) with
    | some cur =>
      if (password.getD "") ≠ "" then
        let ph := hashPassword (password.getD "") freshSalt
        users.map (fun u =>
          if u.id == cur.id then
            { u with
              name := name, role := role,
              is_active := if is_active then 1 else 0,
              can_create_directives := if can_create_directives then 1 else 0,
              password_hash := some ph, salt := some freshSalt }
          else u)
      else
        users.map (fun u =>
          if u.id == cur.id then
            { u with
              name := name, role := role,
              is_active := if is_active then 1 else 0,
              can_create_directives := if can_create_directives then 1 else 0 }
          else u)
    | none =>
      let pw := if (password.getD "") ≠ "" then password.getD "" else "changeme"
      users ++
        [{ id := newId, name := name, email := email_norm, role := role,
           can_create_directives := if can_create_directives then 1 else 0,
           is_active := if is_active then 1 else 0,
           password_hash := some (hashPassword pw freshSalt), salt := some freshSalt,
           created_date := now }]
  else users

/-! ### Reports: creation and the dashboard metrics -/

/-- The Hebrew → English priority translation table of `create_report`. -/
def heMap (p : String) : Option String :=
  if p = "נמוכה" then some "Low"
  else if p = "בינונית" then some "Medium"
  else if p = "גבוהה" then some "High"
  else if p = "קריטית" then some "Critical"
  else none

/-- The in-place normalization `create_report` applies to its `metrics` dict. -/
def normalizeMetrics (m : Metrics) : Metrics :=
  match m.priority_level with
  | some p =>
    match heMap p with
    | some en => { m with priority_level := some en }
    | none => m
  | none => m

/-- The `data` dict passed to `create_report` by the submission form
(`report_date` is a `datetime.date`; optional keys are `Option`). -/
structure ReportInput where
  department : String
  report_date : PyDate
  key_activities : String
  production_amounts : String
  challenges : Option String
  metrics : Metrics
  additional_notes : Option String
  status : Option String
  created_by : Option String
deriving DecidableEq, Repr

/-- Model of `create_report(data)`: the stored row (`now` stands for the
`datetime.utcnow().isoformat(timespec="seconds")` timestamp, `newId` for the
autoincrement id). -/
def createReport (data : ReportInput) (now : String) (newId : Nat) : Report :=
  { id := newId, department := data.department,
    report_date := isoOfDate data.report_date,
    key_activities := data.key_activities,
    production_amounts := data.production_amounts,
    challenges := data.challenges,
    metrics := normalizeMetrics data.metrics,
    additional_notes := data.additional_notes,
    status := data.status.getD "submitted",
    created_date := now, created_by := data.created_by }

/-- The dashboard's `today_reports`: reports whose stored `report_date` equals
today's ISO string. -/
def todayReports (reports : List Report) (tday : String) : List Report :=
  reports.filter (fun r => r.report_date == tday)

/-- The dashboard completion metric
`int(round((len(today_reports) / max(1, len(departments))) * 100, 0))`,
with the float arithmetic simulated exactly. -/
def completionRate (reports : List Report) (departments : List Dept) (tday : String) : Int :=
  pyIntRound0 (pyMul100Float (pyDivFloat (todayReports reports tday).length
    (max 1 departments.length)))

/-- The submission timestamp the dashboard derives for a report: parse
`created_date` (with `Z`s removed), falling back to `report_date`, else none. -/
def reportTs (r : Report) : Option PyDateTime :=
  match datetimeFromIso (stripZ r.created_date) with
  | some t => some t
  | none => datetimeFromIso r.report_date

/-- Lookup in the `latest_map` association (Python dict access by key). -/
def lookupLatest (m : List (String × PyDateTime)) (dept : String) : Option PyDateTime :=
  match m.find? (fun p => p.1 == dept) with
  | some p => some p.2
  | none => none

/-- One step of the `latest_map` construction loop. -/
def updLatest (m : List (String × PyDateTime)) (r : Report) : List (String × PyDateTime) :=
  match reportTs r with
  | none => m
  | some ts =>
    match lookupLatest m r.department with
    | none => m ++ [(r.department, ts)]
    | some old =>
      if ts.gtb old then m.map (fun p => if p.1 == r.department then (p.1, ts) else p)
      else m

/-- The dashboard's `latest_map`: latest submission timestamp per department,
over today's reports. -/
def latestMap (reports : List Report) (tday : String) : List (String × PyDateTime) :=
  (todayReports reports tday).foldl updLatest []

/-- The sort key `k(d) = (-has, -num)` of the submission-time department sort. -/
def deptSortKey (m : List (String × PyDateTime)) (d : Dept) : Int × Int :=
  match lookupLatest m d.name with
  | none => (0, 1)
  | some ts => (-1, -ts.key)

/-- Lexicographic `≤` on sort keys, the order `sorted` uses on key tuples. -/
def keyLe (a b : Int × Int) : Bool := a.1 < b.1 || (a.1 == b.1 && a.2 ≤ b.2)

/-- Model of `sorted_departments` in its submission-time mode: a stable sort by `k`. -/
def sortedDepartmentsByTime (departments : List Dept)
    (m : List (String × PyDateTime)) : List Dept :=
  departments.mergeSort (fun d1 d2 => keyLe (deptSortKey m d1) (deptSortKey m d2))

/-! ### The report browser filter (`include`) -/

/-- The filter controls of the report-database page. -/
structure FilterSpec where
  dept : String
  useFrom : Bool
  fromDate : PyDate
  useTo : Bool
  toDate : PyDate
  search : String
deriving DecidableEq, Repr

/-- The all-departments sentinel `"(הכול)"`. -/
def allDeptsSentinel : String := "(הכול)"

/-- The department predicate of `include`. -/
def deptOk (f : FilterSpec) (r : Report) : Bool :=
  !(f.dept != allDeptsSentinel && r.department != f.dept)

/-- The from-date predicate of `include`: excludes only when the stored date
parses and is before `from_date`; a parse failure is swallowed. -/
def fromOk (f : FilterSpec) (r : Report) : Bool :=
  if f.useFrom then
    match dateFromIso r.report_date with
    | some d => !(PyDate.ltb d f.fromDate)
    | none => true
  else true

/-- The to-date predicate of `include`, with the same leniency. -/
def toOk (f : FilterSpec) (r : Report) : Bool :=
  if f.useTo then
    match dateFromIso r.report_date with
    | some d => !(PyDate.ltb f.toDate d)
    | none => true
  else true

/-- The text-search predicate of `include`: case-insensitive substring test
against the four searched fields (skipped when the search box is empty). -/
def searchOk (f : FilterSpec) (r : Report) : Bool :=
  if f.search ≠ "" then
    let s := lowerStr f.search
    hasSub s.data (lowerStr r.key_activities).data
      || hasSub s.data (lowerStr r.production_amounts).data
      || hasSub s.data (lowerStr (r.challenges.getD "")).data
      || hasSub s.data (lowerStr r.department).data
  else true

/-- The `include(r)` predicate: conjunction of the four tests. -/
def reportOk (f : FilterSpec) (r : Report) : Bool :=
  deptOk f r && fromOk f r && toOk f r && searchOk f r

/-- Model of `filtered = [r for r in reports if include(r)]`. -/
def filterReports (f : FilterSpec) (reports : List Report) : List Report :=
  reports.filter (reportOk f)

/-! ### Directives: creation, listing, JSON codec, display status -/

/-- One character, escaped as `json.dumps(..., ensure_ascii=False)` does. -/
def escChar (c : Char) : List Char :=
  if c = '"' then ['\\', '"']
  else if c = '\\' then ['\\', '\\']
  else if c = '\n' then ['\\', 'n']
  else if c = '\r' then ['\\', 'r']
  else if c = '\t' then ['\\', 't']
  else if c.toNat = 8 then ['\\', 'b']
  else if c.toNat = 12 then ['\\', 'f']
  else if c.toNat < 32 then ['\\', 'u', '0', '0', hexChar (c.toNat / 16), hexChar (c.toNat % 16)]
  else [c]

/-- A JSON string literal (characters, including the quotes). -/
def encStrChars (s : String) : List Char := '"' :: (s.data.flatMap escChar ++ ['"'])

/-- Model of `json.dumps` on a list of strings (default separators: `", "`). -/
def jsonDumpsList (l : List String) : String :=
  match l with
  | [] => "[]"
  | s :: rest =>
    ⟨'[' :: (encStrChars s ++ rest.flatMap (fun t => ',' :: ' ' :: encStrChars t) ++ [']'])⟩

/-- JSON whitespace. -/
def jsonWs (c : Char) : Bool := c == ' ' || c == '\t' || c == '\n' || c == '\r'

/-- Drop leading JSON whitespace. -/
def skipWs : List Char → List Char
  | c :: cs => if jsonWs c then skipWs cs else c :: cs
  | [] => []

/-- Hexadecimal nibble value of a character. -/
def hexNib (c : Char) : Option Nat :=
  if '0' ≤ c ∧ c ≤ '9' then some (c.toNat - '0'.toNat)
  else if 'a' ≤ c ∧ c ≤ 'f' then some (c.toNat - 'a'.toNat + 10)
  else if 'A' ≤ c ∧ c ≤ 'F' then some (c.toNat - 'A'.toNat + 10)
  else none

/-- JSON simple escape decoding. -/
def escDecode (c : Char) : Option Char :=
  if c = '"' then some '"'
  else if c = '\\' then some '\\'
  else if c = '/' then some '/'
  else if c = 'n' then some '\n'
  else if c = 't' then some '\t'
  else if c = 'r' then some '\r'
  else if c = 'b' then some (Char.ofNat 8)
  else if c = 'f' then some (Char.ofNat 12)
  else none

/-- Four hexadecimal digits of a `\\u` escape. -/
def hex4 (a b c d : Char) : Option Nat :=
  match hexNib a, hexNib b, hexNib c, hexNib d with
  | some va, some vb, some vc, some vd => some (((va * 16 + vb) * 16 + vc) * 16 + vd)
  | _, _, _, _ => none

/-- Parse a JSON string body after the opening quote; `json.loads` rejects raw
control characters inside strings. -/
def parseStrBody : List Char → Option (List Char × List Char)
  | '"' :: rest => some ([], rest)
  | '\\' :: 'u' :: a :: b :: c :: d :: rest =>
    match hex4 a b c d with
    | some n =>
      match parseStrBody rest with
      | some (s, r) => some (Char.ofNat n :: s, r)
      | none => none
    | none => none
  | '\\' :: e :: rest =>
    match escDecode e with
    | some ch =>
      match parseStrBody rest with
      | some (s, r) => some (ch :: s, r)
      | none => none
    | none => none
  | c :: rest =>
    if c.toNat < 32 then none
    else
      match parseStrBody rest with
      | some (s, r) => some (c :: s, r)
      | none => none
  | [] => none

/-- After one parsed array element: a closing bracket ends the array, a comma
continues with the given continuation parser. -/
def parseElemStep (recur : List Char → Option (List (List Char) × List Char)) :
    Option (List Char × List Char) → Option (List (List Char) × List Char)
  | some (s, r2) =>
    match skipWs r2 with
    | ']' :: r3 => some ([s], r3)
    | ',' :: r3 => (recur r3).map (fun p => (s :: p.1, p.2))
    | _ => none
  | none => none

/-- Parse the elements of a JSON string array, positioned before an element;
returns the strings and what follows the closing bracket.  The `fuel`
parameter only bounds the recursion depth; one unit is spent per element, and
every element consumes several characters, so the fuel passed below (the input
length) can never be exhausted before the input is. -/
def parseElems : Nat → List Char → Option (List (List Char) × List Char)
  | 0, _ => none
  | fuel + 1, cs =>
    match skipWs cs with
    | '"' :: r => parseElemStep (parseElems fuel) (parseStrBody r)
    | _ => none

/-- Model of `json.loads` restricted to arrays of strings (the only JSON documents the
directive `target_departments` column ever holds). -/
def jsonLoadsList (s : String) : Option (List String) :=
  match skipWs s.data with
  | '[' :: r =>
    match skipWs r with
    | ']' :: r2 => if (skipWs r2).isEmpty then some [] else none
    | _ =>
      match parseElems r.length r with
      | some (items, rest) =>
        if (skipWs rest).isEmpty then some (items.map (fun l => ⟨l⟩)) else none
      | none => none
  | _ => none

/-- The `data` dict passed to `create_directive` by the directive form. -/
structure DirectiveInput where
  title : String
  description : String
  priority : Option String
  target_departments : List String
  due_date : PyDate
  status : Option String
  completion_notes : Option String
  created_by : Option String
deriving DecidableEq, Repr

/-- The row `create_directive(data)` inserts (`now` is the utcnow timestamp,
`newId` the autoincrement id). -/
def createDirectiveRow (data : DirectiveInput) (now : String) (newId : Nat) : DirectiveRow :=
  { id := newId, title := data.title, description := data.description,
    priority := data.priority.getD "Medium",
    target_departments := jsonDumpsList data.target_departments,
    due_date := isoOfDate data.due_date,
    status := data.status.getD "active",
    completion_notes := data.completion_notes,
    created_date := now, created_by := data.created_by }

/-- Model of `create_directive`: append the new row to the table. -/
def createDirective (store : List DirectiveRow) (data : DirectiveInput)
    (now : String) (newId : Nat) : List DirectiveRow :=
  store ++ [createDirectiveRow data now newId]

/-- Decode one stored row as `list_directives` does: empty text means `[]`,
otherwise `json.loads` (whose failure would raise — here `none`). -/
def decodeDirectiveRow (r : DirectiveRow) : Option Directive :=
  if r.target_departments = "" then
    some
      { id := r.id, title := r.title, description := r.description,
        priority := r.priority, target_departments := [], due_date := r.due_date,
        status := r.status, completion_notes := r.completion_notes,
        created_date := r.created_date, created_by := r.created_by }
  else
    match jsonLoadsList r.target_departments with
    | some l =>
      some
        { id := r.id, title := r.title, description := r.description,
          priority := r.priority, target_departments := l, due_date := r.due_date,
          status := r.status, completion_notes := r.completion_notes,
          created_date := r.created_date, created_by := r.created_by }
    | none => none

/-- Decode every row, propagating a decoding failure. -/
def decodeRows : List DirectiveRow → Option (List Directive)
  | [] => some []
  | r :: rest => do
    let d ← decodeDirectiveRow r
    let ds ← decodeRows rest
    pure (d :: ds)

/-- Model of `list_directives()` with its default `-created_date` ordering: sort the
rows by `created_date` descending (stably), then decode each. -/
def listDirectives (rows : List DirectiveRow) : Option (List Directive) :=
  decodeRows (rows.mergeSort (fun a b => decide (b.created_date ≤ a.created_date)))

/-- The read-time status relabel of the directives tab: an `active` directive
whose parseable `due_date` is before today displays as `overdue`; otherwise
(including on a parse failure) the stored status is displayed.  Nothing is
written back. -/
def displayStatus (d : Directive) (today : PyDate) : String :=
  match dateFromIso d.due_date with
  | some due => if d.status == "active" && PyDate.ltb due today then "overdue" else d.status
  | none => d.status

/-! ## Theorems about the claims -/

/-- C1: for a directive whose stored status is one of the two persisted values,
the display status computed at read time is `"overdue"` exactly when the
status is `"active"` and the stored due date is strictly before today; in
every other case the displayed value is the stored status.  `displayStatus` is
a pure function of the record, so the relabel is never written to storage. -/
theorem displayStatus_overdue_iff (d : Directive) (today : PyDate)
    (h : d.status = "active" ∨ d.status = "completed") :
    (displayStatus d today = "overdue" ↔
      d.status = "active" ∧
        ∃ due, dateFromIso d.due_date = some due ∧ PyDate.ltb due today = true)
    ∧ (¬(d.status = "active" ∧
          ∃ due, dateFromIso d.due_date = some due ∧ PyDate.ltb due today = true) →
        displayStatus d today = d.status) := by
  have hne : d.status ≠ "overdue" := by
    rcases h with h | h <;> simp [h]
  unfold displayStatus
  cases hdi : dateFromIso d.due_date with
  | none =>
    refine ⟨⟨fun hov => absurd hov hne, ?_⟩, fun _ => rfl⟩
    rintro ⟨-, due, hdue, -⟩
    simp [hdi] at hdue
  | some due =>
    dsimp only
    by_cases hc : d.status == "active" && PyDate.ltb due today
    · rw [if_pos hc]
      simp only [Bool.and_eq_true, beq_iff_eq] at hc
      exact ⟨⟨fun _ => ⟨hc.1, due, rfl, hc.2⟩, fun _ => rfl⟩,
        fun hn => absurd ⟨hc.1, due, rfl, hc.2⟩ hn⟩
    · rw [if_neg hc]
      refine ⟨⟨fun hov => absurd hov hne, ?_⟩, fun _ => rfl⟩
      rintro ⟨ha, due', hdue', hlt⟩
      obtain rfl : due = due' := Option.some.inj hdue'
      exact absurd (by simp [ha, hlt]) hc

/-- Witness for C1: an `active` directive due 2026-10-11 displays as
`overdue` on 2026-10-12. -/
theorem displayStatus_overdue_iff_witness :
    displayStatus
      { id := 1, title := "t", description := "d", priority := "Medium",
        target_departments := ["A"], due_date := "2026-10-11", status := "active",
        completion_notes := none, created_date := "2026-10-10T08:00:00",
        created_by := none } ⟨2026, 10, 12⟩ = "overdue" :=
  ((displayStatus_overdue_iff _ ⟨2026, 10, 12⟩ (Or.inl rfl)).1).mpr
    ⟨rfl, ⟨2026, 10, 11⟩, by decide, by decide⟩

/-- C4: with the all-departments sentinel and no other criteria the filter
returns the report list unchanged, and with only a non-empty search text `s`
it returns exactly the reports in which `s` occurs case-insensitively in one
of `key_activities`, `production_amounts`, `challenges` or `department`. -/
theorem filterReports_sentinel_and_search (reports : List Report)
    (fromD toD : PyDate) (s : String) :
    filterReports ⟨allDeptsSentinel, false, fromD, false, toD, ""⟩ reports = reports
    ∧ (s ≠ "" →
        filterReports ⟨allDeptsSentinel, false, fromD, false, toD, s⟩ reports =
          reports.filter (fun r =>
            hasSub (lowerStr s).data (lowerStr r.key_activities).data
              || hasSub (lowerStr s).data (lowerStr r.production_amounts).data
              || hasSub (lowerStr s).data (lowerStr (r.challenges.getD "")).data
              || hasSub (lowerStr s).data (lowerStr r.department).data)) := by
  constructor
  · unfold filterReports
    rw [List.filter_eq_self]
    intro r _
    simp [reportOk, deptOk, fromOk, toOk, searchOk]
  · intro hs
    unfold filterReports
    apply List.filter_congr
    intro r _
    simp [reportOk, deptOk, fromOk, toOk, searchOk, hs]

/-- Witness for C4: searching `"x"` keeps exactly the matching report. -/
theorem filterReports_sentinel_and_search_witness :
    filterReports ⟨allDeptsSentinel, false, ⟨2026, 1, 1⟩, false, ⟨2026, 1, 1⟩, "x"⟩
        [{ id := 1, department := "A", report_date := "2026-10-12",
           key_activities := "fix X-ray", production_amounts := "12",
           challenges := none, metrics := ⟨some 0, some 0, some "Low"⟩,
           additional_notes := none, status := "submitted",
           created_date := "2026-10-12T08:00:00", created_by := none }] =
      List.filter (fun r =>
          hasSub (lowerStr "x").data (lowerStr r.key_activities).data
            || hasSub (lowerStr "x").data (lowerStr r.production_amounts).data
            || hasSub (lowerStr "x").data (lowerStr (r.challenges.getD "")).data
            || hasSub (lowerStr "x").data (lowerStr r.department).data)
        [{ id := 1, department := "A", report_date := "2026-10-12",
           key_activities := "fix X-ray", production_amounts := "12",
           challenges := none, metrics := ⟨some 0, some 0, some "Low"⟩,
           additional_notes := none, status := "submitted",
           created_date := "2026-10-12T08:00:00", created_by := none }] :=
  (filterReports_sentinel_and_search _ ⟨2026, 1, 1⟩ ⟨2026, 1, 1⟩ "x").2 (by decide)

/-- C5: when a report's stored `report_date` fails to parse, both date-range
predicates pass it, so the whole filter reduces to the department and search
tests: the parse failure is swallowed and never excludes the report. -/
theorem malformed_date_passes_filter (f : FilterSpec) (r : Report)
    (h : dateFromIso r.report_date = none) :
    fromOk f r = true ∧ toOk f r = true
      ∧ reportOk f r = (deptOk f r && searchOk f r) := by
  have hf : fromOk f r = true := by
    unfold fromOk
    cases f.useFrom <;> simp [h]
  have ht : toOk f r = true := by
    unfold toOk
    cases f.useTo <;> simp [h]
  exact ⟨hf, ht, by simp [reportOk, hf, ht]⟩

/-- Witness for C5: a report dated `"not-a-date"` passes both active date
bounds. -/
theorem malformed_date_passes_filter_witness :
    fromOk ⟨allDeptsSentinel, true, ⟨2026, 1, 1⟩, true, ⟨2026, 1, 2⟩, ""⟩
        { id := 1, department := "A", report_date := "not-a-date",
          key_activities := "a", production_amounts := "b",
          challenges := none, metrics := ⟨some 0, some 0, some "Low"⟩,
          additional_notes := none, status := "submitted",
          created_date := "2026-10-12T08:00:00", created_by := none } = true
    ∧ toOk ⟨allDeptsSentinel, true, ⟨2026, 1, 1⟩, true, ⟨2026, 1, 2⟩, ""⟩
        { id := 1, department := "A", report_date := "not-a-date",
          key_activities := "a", production_amounts := "b",
          challenges := none, metrics := ⟨some 0, some 0, some "Low"⟩,
          additional_notes := none, status := "submitted",
          created_date := "2026-10-12T08:00:00", created_by := none } = true :=
  ⟨(malformed_date_passes_filter _ _ (by decide)).1,
   (malformed_date_passes_filter _ _ (by decide)).2.1⟩

/-- C6: `create_report` stores the Hebrew priority labels translated to their
English enum values (`נמוכה ↦ Low`, `בינונית ↦ Medium`, `גבוהה ↦ High`,
`קריטית ↦ Critical`) and stores every other priority value unchanged
(including an absent one). -/
theorem createReport_priority_normalization (data : ReportInput) (now : String)
    (newId : Nat) :
    (createReport data now newId).metrics.priority_level =
      data.metrics.priority_level.map (fun p =>
        if p = "נמוכה" then "Low"
        else if p = "בינונית" then "Medium"
        else if p = "גבוהה" then "High"
        else if p = "קריטית" then "Critical"
        else p) := by
  show (normalizeMetrics data.metrics).priority_level = _
  unfold normalizeMetrics heMap
  cases hp : data.metrics.priority_level with
  | none => simp [hp]
  | some p =>
    by_cases h1 : p = "נמוכה"
    · simp [h1, hp]
    · by_cases h2 : p = "בינונית"
      · simp [h1, h2, hp]
      · by_cases h3 : p = "גבוהה"
        · simp [h1, h2, h3, hp]
        · by_cases h4 : p = "קריטית"
          · simp [h1, h2, h3, h4, hp]
          · simp [h1, h2, h3, h4, hp]

/-- C3 counterexample: an identifier that contains `@` and matches no stored
email can still log in, through the name-lookup fallback — the lookup is not
"as an email when it contains `@` and else as a name". -/
theorem verifyLogin_email_fallback_counterexample :
    containsChar "x@y" '@' = true
    ∧ findUserByEmail
        [{ id := 1, name := "x@y", email := "bob", role := "user",
           can_create_directives := 0, is_active := 1,
           password_hash := some (hashPassword "pw" "s"), salt := some "s",
           created_date := "2026-01-01" }] "x@y" = none
    ∧ verifyLogin
        [{ id := 1, name := "x@y", email := "bob", role := "user",
           can_create_directives := 0, is_active := 1,
           password_hash := some (hashPassword "pw" "s"), salt := some "s",
           created_date := "2026-01-01" }] "x@y" "pw" =
      some
        { id := 1, name := "x@y", email := "bob", role := "user",
          can_create_directives := 0, is_active := 1,
          password_hash := some (hashPassword "pw" "s"), salt := some "s",
          created_date := "2026-01-01" } := by
  refine ⟨by decide, by decide, ?_⟩
  unfold verifyLogin
  rw [show loginLookup
      [{ id := 1, name := "x@y", email := "bob", role := "user",
         can_create_directives := 0, is_active := 1,
         password_hash := some (hashPassword "pw" "s"), salt := some "s",
         created_date := "2026-01-01" }] "x@y" =
      some
        { id := 1, name := "x@y", email := "bob", role := "user",
          can_create_directives := 0, is_active := 1,
          password_hash := some (hashPassword "pw" "s"), salt := some "s",
          created_date := "2026-01-01" } from by decide]
  simp

/-- C3 (amended): `verify_login` succeeds with exactly the user produced by
the lookup — email lookup when the identifier contains `@`, with a fallback
to the case-insensitive name lookup whenever that produced nothing — and only
when that user is active and the digest recomputed from the supplied password
and stored salt equals the stored digest; in every other situation it returns
none. -/
theorem verifyLogin_characterization (users : List User)
    (identifier password : String) (u : User) :
    verifyLogin users identifier password = some u ↔
      (loginLookup users identifier = some u ∧ u.is_active ≠ 0
        ∧ hashPassword password (u.salt.getD "") = u.password_hash.getD "") := by
  unfold verifyLogin
  cases hl : loginLookup users identifier with
  | none => simp
  | some v =>
    dsimp only
    by_cases hact : v.is_active == 0
    · have h0 : v.is_active = 0 := by simpa using hact
      simp only [if_pos hact]
      constructor
      · intro h
        simp at h
      · rintro ⟨hv, hau, -⟩
        obtain rfl : v = u := Option.some.inj hv
        exact absurd h0 hau
    · have h0 : v.is_active ≠ 0 := by simpa using hact
      simp only [if_neg hact]
      by_cases hh : hashPassword password (v.salt.getD "") == v.password_hash.getD ""
      · simp only [if_pos hh]
        constructor
        · intro h
          obtain rfl : v = u := Option.some.inj h
          exact ⟨rfl, h0, by simpa using hh⟩
        · rintro ⟨hv, -, -⟩
          exact hv
      · simp only [if_neg hh]
        constructor
        · intro h
          simp at h
        · rintro ⟨hv, -, hhash⟩
          obtain rfl : v = u := Option.some.inj hv
          exact absurd (by simpa using hhash) hh

/-- C9: upserting an existing email without a non-empty password rewrites
`name`, `role`, `is_active` and `can_create_directives` on the matched row but
leaves `password_hash` and `salt` (and every other field, and every other
row) unchanged. -/
theorem upsert_without_password_keeps_credentials (users : List User)
    (name email role : String) (is_active can_create : Bool)
    (password : Option String) (freshSalt now : String) (newId : Nat) (cur : User)
    (hname : name ≠ "") (hemail : lowerStr (stripStr email) ≠ "")
    (hrole : role = "admin" ∨ role = "user")
    (hfound : users.find? (fun u => u.email == lowerStr (stripStr email)) = some cur)
    (hpw : password = none ∨ password = some "") :
    createOrUpdateUser users name email role is_active can_create password
        freshSalt newId now =
      users.map (fun u =>
        if u.id == cur.id then
          { u with
            name := name, role := role,
            is_active := if is_active then 1 else 0,
            can_create_directives := if can_create then 1 else 0 }
        else u) := by
  have hpd : password.getD "" = "" := by
    rcases hpw with rfl | rfl <;> rfl
  unfold createOrUpdateUser
  rw [if_pos ⟨hname, hemail, hrole⟩, hfound]
  dsimp only
  rw [if_neg (by simp [hpd])]

/-- Witness for C9: a permissions-only upsert of an existing account keeps its
hash and salt. -/
theorem upsert_without_password_keeps_credentials_witness :
    createOrUpdateUser
        [{ id := 7, name := "Old Name", email := "a@b", role := "user",
           can_create_directives := 0, is_active := 1,
           password_hash := some "HASH", salt := some "SALT",
           created_date := "2026-01-01" }]
        "New" "A@B " "admin" false true none "fresh" 9 "now" =
      [{ id := 7, name := "New", email := "a@b", role := "admin",
         can_create_directives := 1, is_active := 0,
         password_hash := some "HASH", salt := some "SALT",
         created_date := "2026-01-01" }] :=
  (upsert_without_password_keeps_credentials _ _ _ _ _ _ _ _ _ _
      { id := 7, name := "Old Name", email := "a@b", role := "user",
        can_create_directives := 0, is_active := 1,
        password_hash := some "HASH", salt := some "SALT",
        created_date := "2026-01-01" }
      (by decide) (by decide) (Or.inl rfl) (by decide) (Or.inl rfl)).trans (by decide)

/-- The hex digits used by this development. -/
def isHexDigitChar (c : Char) : Bool :=
  ('0' ≤ c && c ≤ '9') || ('a' ≤ c && c ≤ 'f')

/-- Each word renders as exactly eight characters. -/
theorem hexWord_length (n : Nat) : (hexWord n).length = 8 := rfl

/-- A hex digest has exactly 64 characters. -/
theorem sha256Hex_length (msg : List Nat) : (sha256Hex msg).length = 64 := by
  simp [sha256Hex, String.length_append, hexWord_length]

/-- The digest of `_hash_password` always has 64 characters. -/
theorem hashPassword_length (password salt : String) :
    (hashPassword password salt).length = 64 :=
  sha256Hex_length _

/-- The digest of `_hash_password` is never the empty string. -/
theorem hashPassword_ne_empty (password salt : String) :
    hashPassword password salt ≠ "" := by
  intro h
  simpa [h] using hashPassword_length password salt

/-- Rendered hex digits are hex digits. -/
theorem hexChar_isHexDigit : ∀ k, k < 16 → isHexDigitChar (hexChar k) = true := by
  decide

/-- Every character of a rendered word is a hex digit. -/
theorem hexWord_isHexDigit (n : Nat) : ∀ c ∈ (hexWord n).data, isHexDigitChar c = true := by
  intro c hc
  have h16 : ∀ k : Nat, k % 16 < 16 := fun k => Nat.mod_lt _ (by norm_num)
  simp only [hexWord, List.mem_cons, List.not_mem_nil, or_false] at hc
  rcases hc with rfl | rfl | rfl | rfl | rfl | rfl | rfl | rfl <;>
    exact hexChar_isHexDigit _ (h16 _)

/-- Every character of a hex digest is a hex digit. -/
theorem sha256Hex_isHexDigit (msg : List Nat) :
    ∀ c ∈ (sha256Hex msg).data, isHexDigitChar c = true := by
  intro c hc
  simp only [sha256Hex, String.data_append, List.mem_append] at hc
  rcases hc with ((((((h | h) | h) | h) | h) | h) | h) | h <;>
    exact hexWord_isHexDigit _ _ h

/-- C10: the recomputed digest is a non-empty string of 64 hex characters, so
it can never equal the empty-string fallback used for a missing stored hash:
whenever the looked-up account has a null or empty `password_hash`,
`verify_login` returns none for every supplied password. -/
theorem missing_hash_never_verifies (p s : String) (users : List User)
    (identifier password : String) (u : User)
    (hu : loginLookup users identifier = some u)
    (hmiss : u.password_hash = none ∨ u.password_hash = some "") :
    (hashPassword p s).length = 64
    ∧ (∀ c ∈ (hashPassword p s).data, isHexDigitChar c = true)
    ∧ verifyLogin users identifier password = none := by
  refine ⟨hashPassword_length p s, sha256Hex_isHexDigit _, ?_⟩
  unfold verifyLogin
  rw [hu]
  dsimp only
  by_cases hact : u.is_active == 0
  · rw [if_pos hact]
  · rw [if_neg hact]
    have hfall : u.password_hash.getD "" = "" := by
      rcases hmiss with h | h <;> simp [h]
    rw [hfall, if_neg (by simpa using hashPassword_ne_empty password (u.salt.getD ""))]

/-- Witness for C10: a user stored with a null hash cannot log in, even with
an empty password. -/
theorem missing_hash_never_verifies_witness :
    (hashPassword "a" "b").length = 64
    ∧ (∀ c ∈ (hashPassword "a" "b").data, isHexDigitChar c = true)
    ∧ verifyLogin
        [{ id := 1, name := "bob", email := "bob@x", role := "user",
           can_create_directives := 0, is_active := 1,
           password_hash := none, salt := none,
           created_date := "2026-01-01" }] "bob" "" = none :=
  missing_hash_never_verifies "a" "b" _ "bob" ""
    { id := 1, name := "bob", email := "bob@x", role := "user",
      can_create_directives := 0, is_active := 1,
      password_hash := none, salt := none, created_date := "2026-01-01" }
    (by decide) (Or.inl rfl)

/-- A positive power of two. -/
theorem ipow2_pos (k : Nat) : 0 < ipow2 k := by
  unfold ipow2
  positivity

/-- Rounding half-to-even of a non-negative fraction is non-negative. -/
theorem frhe_nonneg (x : Frac) (hn : 0 ≤ x.num) (hd : 0 < x.den) : 0 ≤ frhe x := by
  have hf : 0 ≤ ffloor x := Int.fdiv_nonneg hn (le_of_lt hd)
  unfold frhe
  dsimp only
  split_ifs <;> omega

/-- Rounding with `flPos` always produces a positive denominator. -/
theorem flPos_den_pos (x : Frac) : 0 < (flPos x).den := by
  unfold flPos
  dsimp only
  split_ifs with hk
  · exact ipow2_pos _
  · exact Int.zero_lt_one

/-- Rounding with `flPos` of a non-negative fraction has a non-negative numerator. -/
theorem flPos_num_nonneg (x : Frac) (hn : 0 ≤ x.num) (hd : 0 < x.den) :
    0 ≤ (flPos x).num := by
  unfold flPos
  dsimp only
  split_ifs with hk
  · exact frhe_nonneg ⟨x.num * ipow2 _, x.den⟩
      (mul_nonneg hn (le_of_lt (ipow2_pos _))) hd
  · exact mul_nonneg
      (frhe_nonneg ⟨x.num, x.den * ipow2 _⟩ hn
        (mul_pos hd (ipow2_pos _)))
      (le_of_lt (ipow2_pos _))

/-- Double rounding preserves non-negativity and denominator positivity. -/
theorem flDouble_nonneg (x : Frac) (hn : 0 ≤ x.num) (hd : 0 < x.den) :
    0 ≤ (flDouble x).num ∧ 0 < (flDouble x).den := by
  unfold flDouble
  split_ifs with h0 hpos
  · exact ⟨le_refl 0, Int.zero_lt_one⟩
  · exact ⟨flPos_num_nonneg x hn hd, flPos_den_pos x⟩
  · exact absurd (lt_of_le_of_ne hn (Ne.symm h0)) hpos

/-- A report fixture used by the completion-rate statements. -/
def simpleReport (i : Nat) (dept rdate : String) : Report :=
  { id := i, department := dept, report_date := rdate,
    key_activities := "a", production_amounts := "b", challenges := none,
    metrics := ⟨some 0, some 0, some "Low"⟩, additional_notes := none,
    status := "submitted", created_date := "2026-10-12T08:00:00",
    created_by := none }

/-- 23 reports for one department, all dated 2026-10-12. -/
def c2Reports23 : List Report :=
  (List.range 23).map (fun i => simpleReport i "D" "2026-10-12")

/-- 40 departments. -/
def c2Depts40 : List Dept := (List.range 40).map (fun i => ⟨i, "D"⟩)

/-- C2 counterexample: with 23 reports dated today and 40 departments the code
computes 57, whereas `round(100 * 23 / max(1, 40)) = round(57.5) = 58` (58
under round-half-to-even, and also 58 under round-half-away-from-zero): the
double-precision quotient falls just below the tie, so the stored claim's
exact-arithmetic formula does not match the code. -/
theorem completionRate_counterexample :
    (todayReports c2Reports23 "2026-10-12").length = 23
    ∧ c2Depts40.length = 40
    ∧ completionRate c2Reports23 c2Depts40 "2026-10-12" = 57
    ∧ frhe ⟨100 * 23, max 1 40⟩ = 58 := by
  decide

/-- C2 (amended): the completion rate is a non-negative integer equal to
`round(100 * |today_reports| / max(1, |departments|))` evaluated in IEEE-754
double-precision arithmetic — it depends only on the two counts, and counts
reports rather than distinct departments: one department with two reports
dated today yields 200. -/
theorem completionRate_spec (reports : List Report) (departments : List Dept)
    (tday : String) :
    0 ≤ completionRate reports departments tday
    ∧ completionRate reports departments tday =
        pyIntRound0 (pyMul100Float (pyDivFloat
          (todayReports reports tday).length (max 1 departments.length)))
    ∧ completionRate
        [simpleReport 1 "A" "2026-10-12", simpleReport 2 "A" "2026-10-12"]
        [⟨1, "A"⟩] "2026-10-12" = 200 := by
  refine ⟨?_, rfl, by decide⟩
  unfold completionRate pyIntRound0 pyMul100Float pyDivFloat
  have hd0 : (0 : Int) < (max 1 departments.length : Nat) := by
    have : 1 ≤ max 1 departments.length := le_max_left _ _
    omega
  have h1 := flDouble_nonneg ⟨((todayReports reports tday).length : Int),
      ((max 1 departments.length : Nat) : Int)⟩ (by positivity) hd0
  have h2 := flDouble_nonneg ⟨(flDouble ⟨((todayReports reports tday).length : Int),
      ((max 1 departments.length : Nat) : Int)⟩).num * 100,
      (flDouble ⟨((todayReports reports tday).length : Int),
        ((max 1 departments.length : Nat) : Int)⟩).den⟩
    (mul_nonneg h1.1 (by norm_num)) h1.2
  exact frhe_nonneg _ h2.1 h2.2

/-- The lookup `lookupLatest` is `isSome` exactly when `find?` is. -/
theorem lookupLatest_isSome (m : List (String × PyDateTime)) (name : String) :
    (lookupLatest m name).isSome = (m.find? (fun p => p.1 == name)).isSome := by
  unfold lookupLatest
  cases m.find? (fun p => p.1 == name) <;> simp

/-- The in-place value update of `latest_map` keeps every key. -/
theorem find?_replaceValue_isSome (d : String) (ts : PyDateTime) (name : String) :
    ∀ m : List (String × PyDateTime),
    ((m.map (fun p => if p.1 == d then (p.1, ts) else p)).find?
        (fun p => p.1 == name)).isSome =
      (m.find? (fun p => p.1 == name)).isSome
  | [] => rfl
  | p :: ps => by
    have h1 : ((if p.1 == d then (p.1, ts) else p).1 == name) = (p.1 == name) := by
      by_cases hp : p.1 == d <;> simp [hp]
    simp only [List.map_cons, List.find?_cons, h1]
    by_cases hn : p.1 == name
    · simp [hn]
    · have ih := find?_replaceValue_isSome d ts name ps
      simp only [List.find?_map, Option.isSome_map'] at ih
      simpa [hn] using ih

/-- One `latest_map` step holds a key for `name` iff the map already did, or
the processed report has a parseable timestamp and belongs to `name`. -/
theorem lookupLatest_updLatest_isSome (m : List (String × PyDateTime)) (r : Report)
    (name : String) :
    (lookupLatest (updLatest m r) name).isSome =
      ((lookupLatest m name).isSome
        || ((reportTs r).isSome && r.department == name)) := by
  unfold updLatest
  cases hts : reportTs r with
  | none => simp
  | some ts =>
    dsimp only
    cases hl : lookupLatest m r.department with
    | none =>
      rw [lookupLatest_isSome, lookupLatest_isSome, List.find?_append]
      by_cases hdn : r.department == name <;> simp [List.find?_cons, hdn]
    | some old =>
      dsimp only
      by_cases hgt : ts.gtb old
      · rw [if_pos hgt, lookupLatest_isSome, lookupLatest_isSome,
          find?_replaceValue_isSome]
        by_cases hdn : r.department == name
        · have : (m.find? (fun p => p.1 == name)).isSome := by
            rw [← lookupLatest_isSome]
            have heq : name = r.department := (beq_iff_eq.mp hdn).symm
            rw [heq, hl]
            rfl
          simp [this]
        · simp [hdn]
      · rw [if_neg hgt]
        by_cases hdn : r.department == name
        · have : (lookupLatest m name).isSome := by
            have heq : name = r.department := (beq_iff_eq.mp hdn).symm
            rw [heq, hl]
            rfl
          simp [this]
        · simp [hdn]

/-- Folding `latest_map` over a report list accumulates exactly the keys of
reports with a parseable timestamp. -/
theorem lookupLatest_foldl_isSome (l : List Report) :
    ∀ (m : List (String × PyDateTime)) (name : String),
    (lookupLatest (l.foldl updLatest m) name).isSome =
      ((lookupLatest m name).isSome
        || l.any (fun r => (reportTs r).isSome && r.department == name)) := by
  induction l with
  | nil => simp
  | cons r l ih =>
    intro m name
    rw [List.foldl_cons, ih, lookupLatest_updLatest_isSome]
    simp [Bool.or_assoc]

/-- A report whose `report_date` equals a parseable today-string always gets a
timestamp: the `created_date` parse may fail, but the fallback parse of
`report_date` succeeds. -/
theorem reportTs_isSome_of_today (r : Report) (tday : String)
    (hr : r.report_date = tday) (htoday : (datetimeFromIso tday).isSome = true) :
    (reportTs r).isSome = true := by
  unfold reportTs
  cases h : datetimeFromIso (stripZ r.created_date) with
  | none =>
    dsimp only
    rw [hr]
    exact htoday
  | some t => rfl

/-- The `latest_map` holds a key for `name` exactly when some report dated
today belongs to department `name`. -/
theorem latestMap_hasKey (reports : List Report) (tday : String) (name : String)
    (htoday : (datetimeFromIso tday).isSome = true) :
    (lookupLatest (latestMap reports tday) name).isSome =
      (todayReports reports tday).any (fun r => r.department == name) := by
  unfold latestMap
  rw [lookupLatest_foldl_isSome]
  have hbase : (lookupLatest ([] : List (String × PyDateTime)) name).isSome = false := rfl
  rw [hbase, Bool.false_or]
  have hiff : ∀ p q : Bool, (p = true ↔ q = true) → p = q := by decide
  apply hiff
  constructor
  · intro h
    obtain ⟨r, hmem, hp⟩ := List.any_eq_true.mp h
    refine List.any_eq_true.mpr ⟨r, hmem, ?_⟩
    simp only [Bool.and_eq_true] at hp
    exact hp.2
  · intro h
    obtain ⟨r, hmem, hp⟩ := List.any_eq_true.mp h
    have hrd : r.report_date = tday := by
      have := (List.mem_filter.mp hmem).2
      exact beq_iff_eq.mp this
    refine List.any_eq_true.mpr ⟨r, hmem, ?_⟩
    simp only [Bool.and_eq_true]
    exact ⟨reportTs_isSome_of_today r tday hrd htoday, hp⟩

/-- The comparator `keyLe` is transitive. -/
theorem keyLe_trans (a b c : Int × Int) :
    keyLe a b = true → keyLe b c = true → keyLe a c = true := by
  simp only [keyLe, Bool.or_eq_true, Bool.and_eq_true, decide_eq_true_eq, beq_iff_eq]
  omega

/-- The comparator `keyLe` is total. -/
theorem keyLe_total (a b : Int × Int) : (keyLe a b || keyLe b a) = true := by
  simp only [keyLe, Bool.or_eq_true, Bool.and_eq_true, decide_eq_true_eq, beq_iff_eq]
  omega

/-- C7: in the latest-submission-time sort, a department that has at least one
report dated today never comes after one that has none: whenever `a` is
placed before `b` and `b` has a today-report, `a` has one too — "has no
report → sorts last", for every department and report list. -/
theorem no_today_report_sorts_last (departments : List Dept) (reports : List Report)
    (tday : String) (htoday : (datetimeFromIso tday).isSome = true) :
    (sortedDepartmentsByTime departments (latestMap reports tday)).Pairwise
      (fun a b =>
        (todayReports reports tday).any (fun r => r.department == b.name) = true →
        (todayReports reports tday).any (fun r => r.department == a.name) = true) := by
  have hs : (departments.mergeSort (fun d1 d2 =>
      keyLe (deptSortKey (latestMap reports tday) d1)
        (deptSortKey (latestMap reports tday) d2))).Pairwise
      (fun d1 d2 =>
        keyLe (deptSortKey (latestMap reports tday) d1)
          (deptSortKey (latestMap reports tday) d2) = true) :=
    List.sorted_mergeSort
      (fun a b c hab hbc => keyLe_trans
        (deptSortKey (latestMap reports tday) a)
        (deptSortKey (latestMap reports tday) b)
        (deptSortKey (latestMap reports tday) c) hab hbc)
      (fun a b => keyLe_total
        (deptSortKey (latestMap reports tday) a)
        (deptSortKey (latestMap reports tday) b)) departments
  refine hs.imp ?_
  intro a b hle hb
  rw [← latestMap_hasKey reports tday b.name htoday] at hb
  rw [← latestMap_hasKey reports tday a.name htoday]
  obtain ⟨tsb, hlb⟩ := Option.isSome_iff_exists.mp hb
  cases hla : lookupLatest (latestMap reports tday) a.name with
  | none =>
    exfalso
    rw [show deptSortKey (latestMap reports tday) a = (0, 1) from by
        unfold deptSortKey; rw [hla],
      show deptSortKey (latestMap reports tday) b = (-1, -tsb.key) from by
        unfold deptSortKey; rw [hlb]] at hle
    simp [keyLe] at hle
  | some tsa => rfl

/-- Witness for C7: with a today-report for department B only, the sorted view
satisfies the pairwise contract. -/
theorem no_today_report_sorts_last_witness :
    (sortedDepartmentsByTime [⟨1, "B"⟩, ⟨2, "A"⟩]
        (latestMap [simpleReport 1 "B" "2026-10-12"] "2026-10-12")).Pairwise
      (fun a b =>
        (todayReports [simpleReport 1 "B" "2026-10-12"] "2026-10-12").any
            (fun r => r.department == b.name) = true →
        (todayReports [simpleReport 1 "B" "2026-10-12"] "2026-10-12").any
            (fun r => r.department == a.name) = true) :=
  no_today_report_sorts_last [⟨1, "B"⟩, ⟨2, "A"⟩]
    [simpleReport 1 "B" "2026-10-12"] "2026-10-12" (by decide)

/-- Rendered hex nibbles decode back to their value. -/
theorem hexNib_hexChar : ∀ k, k < 16 → hexNib (hexChar k) = some k := by
  decide

/-- A non-whitespace head passes `skipWs` untouched. -/
theorem skipWs_cons_of_not_ws (c : Char) (cs : List Char) (h : jsonWs c = false) :
    skipWs (c :: cs) = c :: cs := by
  simp [skipWs, h]

/-- An unescaped printable character is consumed verbatim. -/
theorem parseStrBody_raw (c : Char) (rest : List Char) (hq : ¬ c = '"')
    (hb : ¬ c = '\\') (hc : ¬ c.toNat < 32) :
    parseStrBody (c :: rest) =
      match parseStrBody rest with
      | some (s, r) => some (c :: s, r)
      | none => none := by
  rw [parseStrBody.eq_def]
  split
  · rename_i heq
    simp at heq
    exact absurd heq.1 hq
  · rename_i heq
    simp at heq
    exact absurd heq.1 hb
  · rename_i heq
    simp at heq
    exact absurd heq.1 hb
  · rename_i heq
    simp at heq
    obtain ⟨rfl, rfl⟩ := heq
    rw [if_neg hc]
  · rename_i heq
    simp at heq

/-- Parsing after one escaped character peels exactly that character. -/
theorem parseStrBody_escChar (c : Char) (rest : List Char) :
    parseStrBody (escChar c ++ rest) =
      match parseStrBody rest with
      | some (s, r) => some (c :: s, r)
      | none => none := by
  unfold escChar
  split_ifs with h1 h2 h3 h4 h5 h6 h7 h8
  · subst h1
    rfl
  · subst h2
    rfl
  · subst h3
    rfl
  · subst h4
    rfl
  · subst h5
    rfl
  · have hc : Char.ofNat 8 = c := by rw [← h6, Char.ofNat_toNat]
    show parseStrBody ('\\' :: 'b' :: rest) = _
    rw [show parseStrBody ('\\' :: 'b' :: rest) =
        (match parseStrBody rest with
          | some (s, r) => some (Char.ofNat 8 :: s, r)
          | none => none) from rfl, hc]
  · have hc : Char.ofNat 12 = c := by rw [← h7, Char.ofNat_toNat]
    show parseStrBody ('\\' :: 'f' :: rest) = _
    rw [show parseStrBody ('\\' :: 'f' :: rest) =
        (match parseStrBody rest with
          | some (s, r) => some (Char.ofNat 12 :: s, r)
          | none => none) from rfl, hc]
  · have hdiv : c.toNat / 16 < 16 := by omega
    have hmod : c.toNat % 16 < 16 := Nat.mod_lt _ (by norm_num)
    show parseStrBody ('\\' :: 'u' :: '0' :: '0' :: hexChar (c.toNat / 16)
        :: hexChar (c.toNat % 16) :: rest) = _
    rw [show parseStrBody ('\\' :: 'u' :: '0' :: '0' :: hexChar (c.toNat / 16)
        :: hexChar (c.toNat % 16) :: rest) =
        (match hex4 '0' '0' (hexChar (c.toNat / 16)) (hexChar (c.toNat % 16)) with
          | some n =>
            match parseStrBody rest with
            | some (s, r) => some (Char.ofNat n :: s, r)
            | none => none
          | none => none) from rfl]
    rw [show hex4 '0' '0' (hexChar (c.toNat / 16)) (hexChar (c.toNat % 16)) =
        some (((0 * 16 + 0) * 16 + c.toNat / 16) * 16 + c.toNat % 16) from by
      unfold hex4
      rw [hexNib_hexChar _ hdiv, hexNib_hexChar _ hmod]
      rfl]
    rw [show ((0 * 16 + 0) * 16 + c.toNat / 16) * 16 + c.toNat % 16 = c.toNat from by
      omega]
    dsimp only
    rw [Char.ofNat_toNat]
  · exact parseStrBody_raw c rest h1 h2 h8

/-- Parsing a fully escaped string body stops at the closing quote. -/
theorem parseStrBody_flatMap (s : List Char) : ∀ rest : List Char,
    parseStrBody (s.flatMap escChar ++ '"' :: rest) = some (s, rest) := by
  induction s with
  | nil =>
    intro rest
    rfl
  | cons c cs ih =>
    intro rest
    rw [List.flatMap_cons, List.append_assoc, parseStrBody_escChar, ih]

/-- The encoded form of a string is at least its two quotes long. -/
theorem encStrChars_length_ge (s : String) : 2 ≤ (encStrChars s).length := by
  simp [encStrChars]

/-- The encoded separators-and-elements tail is at least as long as its
element count. -/
theorem sepEnc_length_ge (l : List String) :
    l.length ≤ (l.flatMap (fun t => ',' :: ' ' :: encStrChars t)).length := by
  induction l with
  | nil => simp
  | cons t ts ih =>
    rw [List.flatMap_cons]
    simp only [List.length_append, List.length_cons]
    omega

/-- Leading whitespace does not change `parseElems`. -/
theorem parseElems_cons_ws (fuel : Nat) (c : Char) (cs : List Char)
    (h : jsonWs c = true) :
    parseElems fuel (c :: cs) = parseElems fuel cs := by
  cases fuel with
  | zero => rfl
  | succ f =>
    simp only [parseElems]
    rw [show skipWs (c :: cs) = skipWs cs from by simp [skipWs, h]]

/-- Opening quote: one step of `parseElems`. -/
theorem parseElems_quote (fuel : Nat) (body : List Char) :
    parseElems (fuel + 1) ('"' :: body) =
      parseElemStep (parseElems fuel) (parseStrBody body) := rfl

/-- A closing bracket after an element ends the array. -/
theorem parseElemStep_close (recur : List Char → Option (List (List Char) × List Char))
    (s r : List Char) :
    parseElemStep recur (some (s, ']' :: r)) = some ([s], r) := rfl

/-- A comma after an element continues with the next element. -/
theorem parseElemStep_comma (recur : List Char → Option (List (List Char) × List Char))
    (s r : List Char) :
    parseElemStep recur (some (s, ',' :: r)) =
      (recur r).map (fun p => (s :: p.1, p.2)) := rfl

/-- Parsing the emitted element stream recovers every element, given fuel
beyond the element count. -/
theorem parseElems_emit : ∀ (l : List String) (s : String) (fuel : Nat),
    l.length < fuel →
    parseElems fuel (encStrChars s
        ++ (l.flatMap (fun t => ',' :: ' ' :: encStrChars t) ++ [']'])) =
      some (s.data :: l.map String.data, []) := by
  intro l
  induction l with
  | nil =>
    intro s fuel hf
    match fuel, hf with
    | fuel + 1, _ =>
      rw [show encStrChars s ++ ([].flatMap (fun t => ',' :: ' ' :: encStrChars t) ++ [']'])
          = '"' :: (s.data.flatMap escChar ++ '"' :: [']']) from by simp [encStrChars]]
      rw [parseElems_quote, parseStrBody_flatMap, parseElemStep_close]
      rfl
  | cons t ts ih =>
    intro s fuel hf
    match fuel, hf with
    | fuel + 1, hf =>
      have hts : ts.length < fuel := by
        simp only [List.length_cons] at hf
        omega
      rw [show encStrChars s
            ++ ((t :: ts).flatMap (fun u => ',' :: ' ' :: encStrChars u) ++ [']'])
          = '"' :: (s.data.flatMap escChar ++ '"' :: ',' :: ' '
              :: (encStrChars t
                ++ (ts.flatMap (fun u => ',' :: ' ' :: encStrChars u) ++ [']'])))
          from by simp [encStrChars]]
      rw [parseElems_quote, parseStrBody_flatMap, parseElemStep_comma,
        parseElems_cons_ws fuel ' ' _ rfl, ih t fuel hts]
      rfl

/-- Encoding a list with `json.dumps` never yields the empty string. -/
theorem jsonDumpsList_ne_empty (l : List String) : jsonDumpsList l ≠ "" := by
  intro h
  have hd := congrArg String.data h
  cases l <;> simp [jsonDumpsList] at hd

/-- The JSON string-list codec round-trips: decoding an encoded list yields
the original list, elements and order intact. -/
theorem jsonLoads_dumps (l : List String) : jsonLoadsList (jsonDumpsList l) = some l := by
  cases l with
  | nil => rfl
  | cons s rest =>
    have hshape : encStrChars s
          ++ (rest.flatMap (fun t => ',' :: ' ' :: encStrChars t) ++ [']'])
        = '"' :: (s.data.flatMap escChar
          ++ '"' :: (rest.flatMap (fun t => ',' :: ' ' :: encStrChars t) ++ [']'])) := by
      simp [encStrChars]
    have hlen : rest.length <
        (encStrChars s
          ++ (rest.flatMap (fun t => ',' :: ' ' :: encStrChars t) ++ [']'])).length := by
      have h1 := sepEnc_length_ge rest
      have h2 := encStrChars_length_ge s
      simp only [List.length_append]
      omega
    unfold jsonDumpsList jsonLoadsList
    dsimp only
    rw [skipWs_cons_of_not_ws '[' _ rfl]
    rw [show (encStrChars s
          ++ rest.flatMap (fun t => ',' :: ' ' :: encStrChars t) ++ [']'])
        = '"' :: (s.data.flatMap escChar
          ++ '"' :: (rest.flatMap (fun t => ',' :: ' ' :: encStrChars t) ++ [']']))
        from by simp [encStrChars]]
    split
    · rename_i r2 heq
      obtain rfl := (List.cons.inj heq).2
      rw [skipWs_cons_of_not_ws '"' _ rfl]
      split
      · rename_i r3 heq2
        simp at heq2
      · rw [← hshape, parseElems_emit rest s _ hlen]
        dsimp only
        rw [show skipWs [] = [] from rfl]
        simp only [List.isEmpty_nil, if_true, List.map_cons, List.map_map]
        have hmapid : List.map ((fun l : List Char => ({ data := l } : String))
            ∘ String.data) rest = rest := List.map_id'' (fun t => rfl) rest
        rw [hmapid]
    · rename_i hno
      exact absurd rfl (hno _)

/-- Decoding the row written by `create_directive` recovers the record, with
`target_departments` deep-equal to the submitted list. -/
theorem decodeDirectiveRow_create (data : DirectiveInput) (now : String) (newId : Nat) :
    decodeDirectiveRow (createDirectiveRow data now newId) =
      some
        { id := newId, title := data.title, description := data.description,
          priority := data.priority.getD "Medium",
          target_departments := data.target_departments,
          due_date := isoOfDate data.due_date, status := data.status.getD "active",
          completion_notes := data.completion_notes, created_date := now,
          created_by := data.created_by } := by
  unfold decodeDirectiveRow createDirectiveRow
  rw [if_neg (jsonDumpsList_ne_empty data.target_departments)]
  dsimp only
  rw [jsonLoads_dumps]

/-- Every row of a successfully decoded list decodes. -/
theorem decodeRows_mem_isSome : ∀ (l : List DirectiveRow) (out : List Directive),
    decodeRows l = some out → ∀ r ∈ l, (decodeDirectiveRow r).isSome = true
  | [], _, _, r, hr => absurd hr (List.not_mem_nil r)
  | x :: xs, out, h, r, hr => by
    unfold decodeRows at h
    cases hd : decodeDirectiveRow x with
    | none =>
      rw [hd] at h
      simp at h
    | some d =>
      rw [hd] at h
      cases hds : decodeRows xs with
      | none =>
        rw [hds] at h
        simp at h
      | some ds =>
        rcases List.mem_cons.mp hr with rfl | hr2
        · simp [hd]
        · exact decodeRows_mem_isSome xs ds hds r hr2

/-- If every row decodes, the whole list decodes, and each row's decoded
record appears in the output. -/
theorem decodeRows_total : ∀ l : List DirectiveRow,
    (∀ r ∈ l, (decodeDirectiveRow r).isSome = true) →
    ∃ out, decodeRows l = some out ∧
      ∀ r ∈ l, ∀ d, decodeDirectiveRow r = some d → d ∈ out
  | [], _ => ⟨[], rfl, by simp⟩
  | x :: xs, h => by
    have hx := h x (List.mem_cons_self x xs)
    obtain ⟨d, hd⟩ := Option.isSome_iff_exists.mp hx
    obtain ⟨out, hout, hmem⟩ :=
      decodeRows_total xs (fun r hr => h r (List.mem_cons_of_mem x hr))
    refine ⟨d :: out, ?_, ?_⟩
    · unfold decodeRows
      rw [hd, hout]
      rfl
    · intro r hr d2 hd2
      rcases List.mem_cons.mp hr with rfl | hr2
      · rw [hd] at hd2
        exact List.mem_cons.mpr (Or.inl (Option.some.inj hd2).symm)
      · exact List.mem_cons.mpr (Or.inr (hmem r hr2 d2 hd2))

/-- C8: creating a directive with a given `target_departments` list and then
listing the directives yields a record whose `target_departments` deep-equals
the submitted list, in the same order: the JSON encode on create and decode on
list are a lossless, order-preserving round-trip. -/
theorem createDirective_roundtrip (store : List DirectiveRow) (data : DirectiveInput)
    (now : String) (newId : Nat) (prev : List Directive)
    (hprev : listDirectives store = some prev) :
    ∃ out, listDirectives (createDirective store data now newId) = some out
      ∧ ∃ d ∈ out, d.id = newId ∧ d.title = data.title
        ∧ d.target_departments = data.target_departments := by
  have hall : ∀ r ∈ (createDirective store data now newId).mergeSort
      (fun a b => decide (b.created_date ≤ a.created_date)),
      (decodeDirectiveRow r).isSome = true := by
    intro r hr
    have hr2 := List.mem_mergeSort.mp hr
    rcases List.mem_append.mp hr2 with hs | hnew
    · exact decodeRows_mem_isSome _ prev hprev r
        (List.mem_mergeSort.mpr hs)
    · rw [List.mem_singleton.mp hnew, decodeDirectiveRow_create]
      rfl
  obtain ⟨out, hout, hmem⟩ := decodeRows_total _ hall
  refine ⟨out, hout, ?_⟩
  have hnewmem : createDirectiveRow data now newId
      ∈ (createDirective store data now newId).mergeSort
        (fun a b => decide (b.created_date ≤ a.created_date)) :=
    List.mem_mergeSort.mpr (List.mem_append.mpr (Or.inr (List.mem_singleton.mpr rfl)))
  refine ⟨_, hmem _ hnewmem _ (decodeDirectiveRow_create data now newId), rfl, rfl, rfl⟩

/-- Witness for C8: creating a directive targeting `["A", "B"]` on an empty
store and listing yields the list back unchanged. -/
theorem createDirective_roundtrip_witness :
    ∃ out, listDirectives (createDirective []
        { title := "t", description := "d", priority := none,
          target_departments := ["A", "B"], due_date := ⟨2026, 10, 20⟩,
          status := none, completion_notes := none, created_by := none }
        "2026-10-12T08:00:00" 1) = some out
      ∧ ∃ d ∈ out, d.id = 1 ∧ d.title = "t" ∧ d.target_departments = ["A", "B"] :=
  createDirective_roundtrip []
    { title := "t", description := "d", priority := none,
      target_departments := ["A", "B"], due_date := ⟨2026, 10, 20⟩,
      status := none, completion_notes := none, created_by := none }
    "2026-10-12T08:00:00" 1 []
    (by simp [listDirectives, decodeRows])

end DailyReport
